import Mathlib

/-!
Verification of the time-budgeted parallel multi-model detection scheduler
(src/main.py) against its natural-language specification.

Shallow embedding conventions:
* machine time values (time.time results, durations) are rationals;
* the camera snapshot call may raise, modelled as Except;
* a model detect call may raise, or return a value, or return the Python
  value None, modelled as Except PyExc (Option Detections);
* plugin.publish is modelled by accumulating PublishEvent values in order;
* the as_completed iteration order over futures is an input list, which the
  theorems constrain to be a permutation of the configured model mapping;
* the wall-clock advance of one loop iteration is an environment input
  (CycleEnv.cycle_wall), and the pacing sleep is exact.
-/

namespace MultithreadSage

/-- Opaque image bytes held by a snapshot (snapshot.data in the source). -/
abbrev Image := Nat

/-- Opaque detection result forwarded by the scheduler (detect output). -/
abbrev Detections := Nat

/-- Data of a raised Python exception: class name and message. -/
structure PyExc where
  ty : String
  msg : String
deriving DecidableEq, Repr

/-- Behaviour of one detect call: raise, or return a value, or return None. -/
abbrev DetectFun := Image → Except PyExc (Option Detections)

/-- Camera snapshot: nanosecond timestamp plus image data. -/
structure Snapshot where
  timestamp : Nat
  data : Image
deriving DecidableEq, Repr

/-- Error record built in run_model_detection for a raised exception. -/
structure ErrorData where
  model : String
  error_type : String
  error_message : String
deriving DecidableEq, Repr

/-- Combined record built at the end of run_detection_cycle_parallel. -/
structure CombinedData where
  image_timestamp_chicago : String
  image_timestamp_ns : Nat
  models_results : List (String × Detections)
  parallel_execution_time_seconds : Rat
deriving DecidableEq, Repr

/-- Timing summary built at the end of main. -/
structure TimingSummary where
  plugin_start_time_chicago : String
  plugin_finish_time_chicago : String
  total_cycles : Nat
  average_cycle_time_seconds : Rat
  cycle_times_seconds : List Rat
  parallel_workers : Nat
  cpu_cores_available : Nat
deriving DecidableEq, Repr

/-- Record published on the plugin.error topic by the except handler of main. -/
structure CriticalErrorData where
  status : String
  error_type : String
  error_message : String
  traceback : String
deriving DecidableEq, Repr

/-- Payload passed to plugin.publish, as structured data before json.dumps. -/
inductive Payload where
  | null
  | error (e : ErrorData)
  | combined (c : CombinedData)
  | timing (s : TimingSummary)
  | critical (c : CriticalErrorData)
deriving DecidableEq, Repr

/-- One call to plugin.publish: topic, payload, optional timestamp kwarg. -/
structure PublishEvent where
  topic : String
  payload : Payload
  timestamp : Option Nat
deriving DecidableEq, Repr

/-- Embedding of run_model_detection (src/main.py lines 22 to 34): returns
the model name, the detect result (None on failure or a detect call that
returned None), and the error record (None unless an exception was raised). -/
def run_model_detection (model_name : String) (detect : DetectFun)
    (image_data : Image) : String × Option Detections × Option ErrorData :=
  match detect image_data with
  | .ok detection_result => (model_name, detection_result, none)
  | .error e => (model_name, none, some ⟨model_name, e.ty, e.msg⟩)

/-- Embedding of json.dumps applied to the error slot, which is either an
error dict or the Python value None (serialised as the JSON value null). -/
def dumpsErr : Option ErrorData → Payload
  | some e => Payload.error e
  | none => Payload.null

/-- Embedding of the Python str.lower() call on a model name, written as a
structural map over the character list. -/
def pyLower (s : String) : String := ⟨s.data.map Char.toLower⟩

/-- Topic used for the per-model error publish in the cycle loop. -/
def errorTopic (model_name : String) : String :=
  "model.error." ++ pyLower model_name

/-- Body of the for-future-in-as_completed loop (src/main.py lines 61 to 70):
on a non-None result, extend all_results; otherwise publish the error record
on the per-model error topic with the snapshot timestamp. -/
def cycle_step (timestamp : Nat) (image : Image)
    (acc : List (String × Detections) × List PublishEvent)
    (m : String × DetectFun) : List (String × Detections) × List PublishEvent :=
  let r := run_model_detection m.1 m.2 image
  match r.2.1 with
  | some result => (acc.1 ++ [(r.1, result)], acc.2)
  | none => (acc.1, acc.2 ++ [⟨errorTopic r.1, dumpsErr r.2.2, some timestamp⟩])

/-- Embedding of run_detection_cycle_parallel (src/main.py lines 37 to 82).
Arguments: the timezone rendering of a nanosecond timestamp (an environment
function), the outcome of the camera snapshot call, the measured wall time of
the executor block (an environment input), and the models in the order their
futures complete. Returns the publish events of the cycle in order together
with the values the Python function returns, or the propagated capture
exception. Note the model mapping in the source is a Python dict, so model
names are unique; the theorems carry that uniqueness as a hypothesis. -/
def run_detection_cycle_parallel (chicagoOf : Nat → String)
    (capture : Except PyExc Snapshot) (parallel_duration : Rat)
    (completed : List (String × DetectFun)) :
    Except PyExc (List PublishEvent × Nat × Rat) :=
  match capture with
  | .error e => .error e
  | .ok snapshot =>
    let timestamp := snapshot.timestamp
    let chicago_snapshot_time := chicagoOf timestamp
    let folded := completed.foldl (cycle_step timestamp snapshot.data) ([], [])
    let combined_data : CombinedData :=
      ⟨chicago_snapshot_time, timestamp, folded.1, parallel_duration⟩
    .ok (folded.2 ++
          [⟨"object.detections.all", Payload.combined combined_data, some timestamp⟩],
         timestamp, parallel_duration)

/-- Success projection of one completed future, as the cycle loop treats it:
the pair appended to all_results when the detect result is non-None. -/
def succPart (image : Image) (m : String × DetectFun) :
    Option (String × Detections) :=
  match (run_model_detection m.1 m.2 image).2.1 with
  | some r => some (m.1, r)
  | none => none

/-- Error projection of one completed future, as the cycle loop treats it:
the publish event emitted when the detect result is None. -/
def errPart (timestamp : Nat) (image : Image) (m : String × DetectFun) :
    Option PublishEvent :=
  match (run_model_detection m.1 m.2 image).2.1 with
  | some _ => none
  | none =>
    some ⟨errorTopic m.1, dumpsErr (run_model_detection m.1 m.2 image).2.2,
          some timestamp⟩

/-- Embedding of the Python int() conversion on a rational (truncation toward
zero), applied to elapsed / interval in the pacing computation of main. -/
def pyint (q : Rat) : Int := if 0 ≤ q then ⌊q⌋ else ⌈q⌉

/-- Embedding of next_cycle_time (src/main.py line 114): the next multiple of
the pacing interval measured from start_time, given the current elapsed time. -/
def next_cycle_time (elapsed interval : Rat) : Rat :=
  ((pyint (elapsed / interval) + 1 : Int) : Rat) * interval

/-- Embedding of sleep_time (src/main.py line 115). -/
def sleep_time (elapsed interval : Rat) : Rat :=
  next_cycle_time elapsed interval - elapsed

/-- Condition of the if at src/main.py line 117: the loop sleeps and goes on
exactly when this holds; otherwise it breaks out of the while loop. -/
def pacing_continue (elapsed interval max_duration : Rat) : Prop :=
  0 < sleep_time elapsed interval ∧
    elapsed + sleep_time elapsed interval < max_duration

instance (e i m : Rat) : Decidable (pacing_continue e i m) := by
  unfold pacing_continue; infer_instance

/-- Environment of one loop iteration: the snapshot call outcome, the measured
executor wall time, the wall-clock advance of the whole iteration body, and the
models in future completion order. -/
structure CycleEnv where
  capture : Except PyExc Snapshot
  parallel_duration : Rat
  cycle_wall : Rat
  completed : List (String × DetectFun)

/-- Embedding of the while loop of main (src/main.py lines 106 to 120), driven
by the list of per-iteration environments and the elapsed time at the loop
condition check. Returns none when the environment list is exhausted while the
loop would still run (the model ran out of inputs, not a program behaviour);
otherwise returns the publish events in order, the execution_times list, and
the exception that aborted the loop, if any. The pacing sleep is modelled as
exact: after a sleep the next condition check sees elapsed equal to
next_cycle_time. -/
def mainLoop (chicagoOf : Nat → String) (max_duration interval : Rat) :
    List CycleEnv → Rat → Option (List PublishEvent × List Rat × Option PyExc)
  | [], elapsed =>
    if elapsed < max_duration then none else some ([], [], none)
  | env :: rest, elapsed =>
    if elapsed < max_duration then
      match run_detection_cycle_parallel chicagoOf env.capture
          env.parallel_duration env.completed with
      | .error e => some ([], [], some e)
      | .ok (events, _timestamp, cycle_duration) =>
        if pacing_continue (elapsed + env.cycle_wall) interval max_duration then
          match mainLoop chicagoOf max_duration interval rest
              (next_cycle_time (elapsed + env.cycle_wall) interval) with
          | none => none
          | some (events2, times, exc) =>
            some (events ++ events2, cycle_duration :: times, exc)
        else
          some (events, [cycle_duration], none)
    else
      some ([], [], none)

/-- Timing skeleton of the while loop of main: the same control flow as
mainLoop over the per-iteration wall-clock advances only, recording the
elapsed value observed at each loop condition check that passes (the start
time of each cycle, measured from start_time). -/
def loopStarts (max_duration interval : Rat) :
    List Rat → Rat → Option (List Rat)
  | [], elapsed => if elapsed < max_duration then none else some []
  | w :: ws, elapsed =>
    if elapsed < max_duration then
      if pacing_continue (elapsed + w) interval max_duration then
        match loopStarts max_duration interval ws
            (next_cycle_time (elapsed + w) interval) with
        | none => none
        | some starts => some (elapsed :: starts)
      else
        some [elapsed]
    else some []

/-- Outcome of one run of main: sys.exit(0), or the re-raised exception of the
except handler. -/
inductive RunOutcome where
  | normal
  | critical (e : PyExc)
deriving DecidableEq, Repr

/-- Embedding of main (src/main.py lines 85 to 149), with the budget and
pacing interval (hardcoded constants in the source, configuration per the
specification) as parameters, the rendered Chicago time strings and the
traceback text as environment inputs, and the per-iteration environments as
the input list. Returns the full ordered publish stream and the run outcome,
or none when the environment list is exhausted early. -/
def mainRun (chicagoOf : Nat → String)
    (plugin_start_time plugin_finish_time traceback_text : String)
    (max_duration interval : Rat) (num_cores : Nat)
    (envs : List CycleEnv) : Option (List PublishEvent × RunOutcome) :=
  let max_workers := min (min 3 num_cores) 3
  match mainLoop chicagoOf max_duration interval envs 0 with
  | none => none
  | some (events, _execution_times, some e) =>
    some (events ++
          [⟨"plugin.error",
            Payload.critical ⟨"critical_error", e.ty, e.msg, traceback_text⟩,
            none⟩],
          RunOutcome.critical e)
  | some (events, execution_times, none) =>
    let timing_summary : TimingSummary :=
      ⟨plugin_start_time, plugin_finish_time, execution_times.length,
       if execution_times.isEmpty then 0
       else execution_times.sum / (execution_times.length : Rat),
       execution_times, max_workers, num_cores⟩
    some (events ++
          [⟨"plugin.timing.summary", Payload.timing timing_summary, none⟩],
          RunOutcome.normal)

/-- Events published by one cycle environment when its capture succeeds, and
the empty list when it raises (a raising cycle publishes nothing). -/
def cycleEvents (chicagoOf : Nat → String) (env : CycleEnv) :
    List PublishEvent :=
  match run_detection_cycle_parallel chicagoOf env.capture
      env.parallel_duration env.completed with
  | .ok r => r.1
  | .error _ => []

/-- Modelled from the spec: deferred publish mode is absent from src/main.py
(the source publishes each cycle immediately); section 4.4 of the spec has the
scheduler, in deferred mode, append each produced cycle result to an ordered
buffer during the run. Cycle results are represented by their publish event
lists. -/
def deferredBuffer (executed : List (List PublishEvent)) :
    List (List PublishEvent) :=
  executed.foldl (fun buffer c => buffer ++ [c]) []

/-- Modelled from the spec: section 4.5 of the spec has the result publisher
drain the buffer strictly in FIFO order after the loop, publishing each
buffered cycle result in turn. -/
def flushBuffer (buffer : List (List PublishEvent)) :
    List (List PublishEvent) := buffer

/-- Statement shape of claim C1: the cycle publishes its error records then
one combined record whose results mapping, together with the error records,
partitions the configured model names, counting once each. -/
def C1Claim (models : List (String × DetectFun)) (events : List PublishEvent)
    (ts : Nat) (d : Rat) : Prop :=
  ∃ results errs chicago,
    events = errs ++
      [⟨"object.detections.all", Payload.combined ⟨chicago, ts, results, d⟩,
        some ts⟩] ∧
    results.length + errs.length = models.length ∧
    ∀ m ∈ models,
      (m.1 ∈ results.map Prod.fst ↔ errorTopic m.1 ∉ errs.map PublishEvent.topic)

/-- Statement shape of the amended claim C2: within a cycle the per-model
error records come first (as invocations complete) and the combined
detections record is published last. -/
def C2Amended (completed : List (String × DetectFun))
    (events : List PublishEvent) : Prop :=
  (events.getLast?).map PublishEvent.topic = some "object.detections.all" ∧
  ∀ ev ∈ events.dropLast, ∃ m ∈ completed, ev.topic = errorTopic m.1

/-- Statement shape of claim C4: the pacing step sleeps to the least multiple
of the interval strictly after the current elapsed time, and it does so
exactly when that target stays under the budget; otherwise the loop breaks. -/
def C4Claim (elapsed interval max_duration : Rat) : Prop :=
  (∃ k : Int, next_cycle_time elapsed interval = (k : Rat) * interval) ∧
  elapsed < next_cycle_time elapsed interval ∧
  (∀ j : Int, elapsed < (j : Rat) * interval →
    next_cycle_time elapsed interval ≤ (j : Rat) * interval) ∧
  elapsed + sleep_time elapsed interval = next_cycle_time elapsed interval ∧
  (pacing_continue elapsed interval max_duration ↔
    next_cycle_time elapsed interval < max_duration)

/-- Statement shape of the amended claim C5: when every iteration is shorter
than the pacing interval, the cycle count is floor of B / T or one more, and
every cycle start time stays within the budget. -/
def C5Amended (B T : Rat) (times : List Rat) (walls : List Rat) : Prop :=
  (⌊B / T⌋ ≤ (times.length : Int) ∧ (times.length : Int) ≤ ⌊B / T⌋ + 1) ∧
  ∃ starts, loopStarts B T walls 0 = some starts ∧
    starts.length = times.length ∧ ∀ s ∈ starts, s ≤ B

/-- Statement shape of claim C6: a fatal capture on cycle k leaves exactly
the complete publish records of cycles 1 to k-1, followed by one best-effort
diagnostic publish, and the run terminates with the failure outcome. -/
def C6Claim (chicagoOf : Nat → String) (traceback_text : String) (B T : Rat)
    (nc : Nat) (good : List CycleEnv) (bad : CycleEnv) (rest : List CycleEnv)
    (exc : PyExc) (ps pf : String) (evs : List PublishEvent)
    (times : List Rat) (e : PyExc) : Prop :=
  e = exc ∧ times.length = good.length ∧
  evs = (good.map (cycleEvents chicagoOf)).flatten ∧
  mainRun chicagoOf ps pf traceback_text B T nc (good ++ bad :: rest) =
    some (evs ++
      [⟨"plugin.error",
        Payload.critical ⟨"critical_error", exc.ty, exc.msg, traceback_text⟩,
        none⟩],
      RunOutcome.critical exc)

/-- Statement shape of claim C8: with model B failing, the cycle still
carries the results of A and C and exactly one error record, the one for B. -/
def C8Claim (nA nB nC : String) (ra rc : Detections) (e : PyExc)
    (events : List PublishEvent) (ts : Nat) (d : Rat) : Prop :=
  ∃ results chicago,
    events = [⟨errorTopic nB, Payload.error ⟨nB, e.ty, e.msg⟩, some ts⟩] ++
      [⟨"object.detections.all", Payload.combined ⟨chicago, ts, results, d⟩,
        some ts⟩] ∧
    results.Perm [(nA, ra), (nC, rc)]

/-- Statement shape of claim C9: the cycle returns the snapshot timestamp and
stamps every publication of the cycle with it. -/
def C9Claim (s : Snapshot) (events : List PublishEvent) (ts : Nat) : Prop :=
  ts = s.timestamp ∧ ∀ ev ∈ events, ev.timestamp = some s.timestamp

/-- Statement shape of claim C10: a detect call returning None yields an
error record with payload null on the per-model error topic, and the model is
absent from the results mapping. -/
def C10Claim (n : String) (events : List PublishEvent) (ts : Nat) (d : Rat) :
    Prop :=
  ∃ results errs chicago,
    events = errs ++
      [⟨"object.detections.all", Payload.combined ⟨chicago, ts, results, d⟩,
        some ts⟩] ∧
    (⟨errorTopic n, Payload.null, some ts⟩ : PublishEvent) ∈ errs ∧
    n ∉ results.map Prod.fst

/-- Concrete timezone rendering used by witnesses. -/
def cOfW : Nat → String := fun _ => "t"

/-- Concrete snapshot used by witnesses. -/
def snapW : Snapshot := ⟨100, 7⟩

/-- Concrete detect call that succeeds with value 11. -/
def fOkA : DetectFun := fun _ => Except.ok (some 11)

/-- Concrete detect call that raises. -/
def fFailB : DetectFun := fun _ => Except.error ⟨"RuntimeError", "boom"⟩

/-- Concrete detect call that succeeds with value 13. -/
def fOkC : DetectFun := fun _ => Except.ok (some 13)

/-- Concrete detect call that returns the Python value None. -/
def fNoneD : DetectFun := fun _ => Except.ok none

/-- Concrete iteration environment: successful capture, one second of wall
time, no models. -/
def envW : CycleEnv := ⟨Except.ok ⟨0, 0⟩, 1, 1, []⟩

/-- Concrete iteration environment taking ten seconds of wall time. -/
def envTen : CycleEnv := ⟨Except.ok ⟨0, 0⟩, 10, 10, []⟩

/-- Concrete iteration environment whose capture raises. -/
def envBad : CycleEnv := ⟨Except.error ⟨"CaptureError", "busy"⟩, 0, 0, []⟩

theorem string_eq_of_data_eq {s t : String} (h : s.data = t.data) : s = t := by
  cases s; cases t
  exact congrArg String.mk h

theorem errorTopic_inj_lower {a b : String}
    (h : errorTopic a = errorTopic b) : pyLower a = pyLower b := by
  unfold errorTopic at h
  have hd := congrArg String.data h
  rw [String.data_append, String.data_append] at hd
  exact string_eq_of_data_eq (List.append_cancel_left hd)

theorem run_model_detection_fst (n : String) (f : DetectFun) (i : Image) :
    (run_model_detection n f i).1 = n := by
  unfold run_model_detection
  cases f i <;> rfl

theorem succ_err_cases (ts : Nat) (img : Image) (m : String × DetectFun) :
    (∃ r, (run_model_detection m.1 m.2 img).2.1 = some r ∧
      succPart img m = some (m.1, r) ∧ errPart ts img m = none) ∨
    ((run_model_detection m.1 m.2 img).2.1 = none ∧ succPart img m = none ∧
      errPart ts img m =
        some ⟨errorTopic m.1, dumpsErr (run_model_detection m.1 m.2 img).2.2,
              some ts⟩) := by
  cases h : (run_model_detection m.1 m.2 img).2.1 with
  | none =>
    right
    exact ⟨rfl, by simp [succPart, h], by simp [errPart, h]⟩
  | some r =>
    left
    exact ⟨r, rfl, by simp [succPart, h], by simp [errPart, h]⟩

theorem cycle_step_eq (ts : Nat) (img : Image)
    (a : List (String × Detections)) (b : List PublishEvent)
    (m : String × DetectFun) :
    cycle_step ts img (a, b) m =
      (a ++ (succPart img m).toList,
       b ++ (errPart ts img m).toList) := by
  rcases succ_err_cases ts img m with ⟨r, h, hs, he⟩ | ⟨h, hs, he⟩ <;>
    simp [cycle_step, run_model_detection_fst, h, hs, he]

theorem cycle_foldl_spec (ts : Nat) (img : Image) :
    ∀ (l : List (String × DetectFun)) (a : List (String × Detections))
      (b : List PublishEvent),
      l.foldl (cycle_step ts img) (a, b) =
        (a ++ l.filterMap (succPart img), b ++ l.filterMap (errPart ts img))
  | [], a, b => by simp
  | m :: l, a, b => by
    rw [List.foldl_cons, cycle_step_eq,
        cycle_foldl_spec ts img l (a ++ (succPart img m).toList)
          (b ++ (errPart ts img m).toList)]
    rcases succ_err_cases ts img m with ⟨r, _h, hs, he⟩ | ⟨_h, hs, he⟩ <;>
      simp [hs, he]

theorem run_cycle_eq (chicagoOf : Nat → String) (s : Snapshot) (dur : Rat)
    (completed : List (String × DetectFun)) :
    run_detection_cycle_parallel chicagoOf (Except.ok s) dur completed =
      Except.ok (completed.filterMap (errPart s.timestamp s.data) ++
        [⟨"object.detections.all",
          Payload.combined ⟨chicagoOf s.timestamp, s.timestamp,
            completed.filterMap (succPart s.data), dur⟩,
          some s.timestamp⟩],
        s.timestamp, dur) := by
  dsimp only [run_detection_cycle_parallel]
  rw [cycle_foldl_spec]
  simp

theorem parts_length (ts : Nat) (img : Image) :
    ∀ l : List (String × DetectFun),
      (l.filterMap (succPart img)).length +
        (l.filterMap (errPart ts img)).length = l.length
  | [] => by simp
  | m :: l => by
    have ih := parts_length ts img l
    rcases succ_err_cases ts img m with ⟨r, _h, hs, he⟩ | ⟨_h, hs, he⟩ <;>
      simp [List.filterMap_cons, hs, he] <;> omega

/-- C1: for every cycle that completes, every configured model name appears
in exactly one of the results mapping of the cycle or its error records,
never both and never neither, so the number of successful results plus the
number of error records equals the number of configured models. The futures
complete in some permutation of the configured model dict, whose per-model
error topics are distinct. -/
theorem c1_results_errors_partition (chicagoOf : Nat → String) (s : Snapshot)
    (dur : Rat) (models completed : List (String × DetectFun))
    (events : List PublishEvent) (ts : Nat) (d : Rat)
    (hperm : completed.Perm models)
    (hnodup : (models.map fun m => pyLower m.1).Nodup)
    (hrun : run_detection_cycle_parallel chicagoOf (Except.ok s) dur completed
      = Except.ok (events, ts, d)) :
    C1Claim models events ts d := by
  rw [run_cycle_eq] at hrun
  simp only [Except.ok.injEq, Prod.mk.injEq] at hrun
  obtain ⟨hev, hts, hd⟩ := hrun
  subst hev hts hd
  refine ⟨completed.filterMap (succPart s.data),
          completed.filterMap (errPart s.timestamp s.data),
          chicagoOf s.timestamp, rfl, ?_, ?_⟩
  · rw [parts_length]
    exact hperm.length_eq
  · intro m hm
    have hfst : (models.map Prod.fst).Nodup := by
      refine List.Nodup.of_map pyLower ?_
      rw [List.map_map]
      exact hnodup
    constructor
    · intro hres hintopic
      obtain ⟨p, hp, hp1⟩ := List.mem_map.mp hres
      obtain ⟨m1, hm1c, hsome1⟩ := List.mem_filterMap.mp hp
      rcases succ_err_cases s.timestamp s.data m1 with
        ⟨r, hrd, hsp, _⟩ | ⟨_, hsp, _⟩
      · rw [hsp] at hsome1
        cases hsome1
        have hm1m : m1 = m :=
          List.inj_on_of_nodup_map hfst (hperm.subset hm1c) hm hp1
        obtain ⟨ev, hevmem, hevt⟩ := List.mem_map.mp hintopic
        obtain ⟨m2, hm2c, he2⟩ := List.mem_filterMap.mp hevmem
        rcases succ_err_cases s.timestamp s.data m2 with
          ⟨r2, _, _, hep2⟩ | ⟨hrd2, _, hep2⟩
        · rw [hep2] at he2
          exact Option.noConfusion he2
        · rw [hep2] at he2
          cases he2
          have hlow : pyLower m2.1 = pyLower m.1 := errorTopic_inj_lower hevt
          have hm2m : m2 = m :=
            List.inj_on_of_nodup_map hnodup (hperm.subset hm2c) hm hlow
          rw [hm2m] at hrd2
          rw [hm1m] at hrd
          rw [hrd] at hrd2
          exact Option.noConfusion hrd2
      · rw [hsp] at hsome1
        exact Option.noConfusion hsome1
    · intro hnotin
      have hmc : m ∈ completed := hperm.mem_iff.mpr hm
      rcases succ_err_cases s.timestamp s.data m with
        ⟨r, _, hsp, _⟩ | ⟨_, _, hep⟩
      · exact List.mem_map.mpr ⟨(m.1, r), List.mem_filterMap.mpr ⟨m, hmc, hsp⟩, rfl⟩
      · exact absurd
          (List.mem_map.mpr ⟨_, List.mem_filterMap.mpr ⟨m, hmc, hep⟩, rfl⟩)
          hnotin

/-- Witness for C1 at a concrete two-model cycle with reversed completion
order, one success and one raised exception. -/
theorem c1_witness :
    C1Claim [("A", fOkA), ("B", fFailB)]
      [⟨errorTopic "B", Payload.error ⟨"B", "RuntimeError", "boom"⟩, some 100⟩,
       ⟨"object.detections.all",
        Payload.combined ⟨"t", 100, [("A", 11)], 1⟩, some 100⟩] 100 1 :=
  c1_results_errors_partition cOfW snapW 1 [("A", fOkA), ("B", fFailB)]
    [("B", fFailB), ("A", fOkA)] _ _ _
    (List.Perm.swap ("A", fOkA) ("B", fFailB) [])
    (by decide) rfl

/-- Counterexample to C2 as stated: in a cycle with one failing model the
first publication is the per-model error record and the combined detections
record comes last, not first. -/
theorem c2_counterexample :
    (run_detection_cycle_parallel cOfW (Except.ok snapW) 1
        [("B", fFailB)]).map (fun r => r.1.map PublishEvent.topic) =
      Except.ok ["model.error.b", "object.detections.all"] ∧
    "model.error.b" ≠ "object.detections.all" := by
  exact ⟨rfl, by decide⟩

/-- C2 amended: within each cycle, the per-model error records are published
first, as model invocations complete, and the combined detections record is
published last, after all of them. -/
theorem c2_amended_error_records_then_combined (chicagoOf : Nat → String)
    (s : Snapshot) (dur : Rat) (completed : List (String × DetectFun))
    (events : List PublishEvent) (ts : Nat) (d : Rat)
    (hrun : run_detection_cycle_parallel chicagoOf (Except.ok s) dur completed
      = Except.ok (events, ts, d)) :
    C2Amended completed events := by
  rw [run_cycle_eq] at hrun
  simp only [Except.ok.injEq, Prod.mk.injEq] at hrun
  obtain ⟨hev, hts, hd⟩ := hrun
  subst hev hts hd
  constructor
  · rw [List.getLast?_concat]
    rfl
  · rw [List.dropLast_concat]
    intro ev hev
    obtain ⟨m, hm, he⟩ := List.mem_filterMap.mp hev
    rcases succ_err_cases s.timestamp s.data m with
      ⟨r, _, _, hep⟩ | ⟨_, _, hep⟩
    · rw [hep] at he
      exact Option.noConfusion he
    · rw [hep] at he
      cases he
      exact ⟨m, hm, rfl⟩

/-- Witness for the amended C2 at a concrete one-model failing cycle. -/
theorem c2_amended_witness :
    C2Amended [("B", fFailB)]
      [⟨errorTopic "B", Payload.error ⟨"B", "RuntimeError", "boom"⟩, some 100⟩,
       ⟨"object.detections.all",
        Payload.combined ⟨"t", 100, [], 1⟩, some 100⟩] :=
  c2_amended_error_records_then_combined cOfW snapW 1 [("B", fFailB)] _ _ _ rfl

/-- C8: one model raising never prevents the other models from appearing in
the same cycle: with models A, B, C where B fails, the results carry A and C
and exactly one error record is produced, the one for B, whatever the future
completion order. -/
theorem c8_failure_isolation (chicagoOf : Nat → String) (s : Snapshot)
    (dur : Rat) (nA nB nC : String) (fA fB fC : DetectFun)
    (ra rc : Detections) (e : PyExc)
    (completed : List (String × DetectFun))
    (events : List PublishEvent) (ts : Nat) (d : Rat)
    (hA : fA s.data = Except.ok (some ra))
    (hB : fB s.data = Except.error e)
    (hC : fC s.data = Except.ok (some rc))
    (hperm : completed.Perm [(nA, fA), (nB, fB), (nC, fC)])
    (hrun : run_detection_cycle_parallel chicagoOf (Except.ok s) dur completed
      = Except.ok (events, ts, d)) :
    C8Claim nA nB nC ra rc e events ts d := by
  rw [run_cycle_eq] at hrun
  simp only [Except.ok.injEq, Prod.mk.injEq] at hrun
  obtain ⟨hev, hts, hd⟩ := hrun
  subst hev hts hd
  have hs3 : [(nA, fA), (nB, fB), (nC, fC)].filterMap (succPart s.data) =
      [(nA, ra), (nC, rc)] := by
    simp [succPart, run_model_detection, hA, hB, hC]
  have he3 : [(nA, fA), (nB, fB), (nC, fC)].filterMap
      (errPart s.timestamp s.data) =
      [⟨errorTopic nB, Payload.error ⟨nB, e.ty, e.msg⟩, some s.timestamp⟩] := by
    simp [errPart, run_model_detection, hA, hB, hC, dumpsErr]
  have hresp : (completed.filterMap (succPart s.data)).Perm [(nA, ra), (nC, rc)] := by
    rw [← hs3]
    exact hperm.filterMap _
  have herrp : completed.filterMap (errPart s.timestamp s.data) =
      [⟨errorTopic nB, Payload.error ⟨nB, e.ty, e.msg⟩, some s.timestamp⟩] := by
    refine List.perm_singleton.mp ?_
    rw [← he3]
    exact hperm.filterMap _
  exact ⟨completed.filterMap (succPart s.data), chicagoOf s.timestamp,
         by rw [herrp], hresp⟩

/-- Witness for C8 at a concrete three-model cycle, completion order A, C, B,
with B raising. -/
theorem c8_witness :
    C8Claim "A" "B" "C" 11 13 ⟨"RuntimeError", "boom"⟩
      [⟨errorTopic "B", Payload.error ⟨"B", "RuntimeError", "boom"⟩, some 100⟩,
       ⟨"object.detections.all",
        Payload.combined ⟨"t", 100, [("A", 11), ("C", 13)], 1⟩, some 100⟩]
      100 1 :=
  c8_failure_isolation cOfW snapW 1 "A" "B" "C" fOkA fFailB fOkC 11 13
    ⟨"RuntimeError", "boom"⟩ [("A", fOkA), ("C", fOkC), ("B", fFailB)] _ _ _
    rfl rfl rfl
    (List.Perm.cons ("A", fOkA) (List.Perm.swap ("B", fFailB) ("C", fOkC) []))
    rfl

/-- C9: the cycle returns the timestamp of its own snapshot and every
publication of the cycle, the combined record and each per-model error
record, carries that same capture timestamp; since this holds of every cycle
for its own snapshot, timestamps neither drift nor are reused across
cycles. -/
theorem c9_capture_timestamp (chicagoOf : Nat → String) (s : Snapshot)
    (dur : Rat) (completed : List (String × DetectFun))
    (events : List PublishEvent) (ts : Nat) (d : Rat)
    (hrun : run_detection_cycle_parallel chicagoOf (Except.ok s) dur completed
      = Except.ok (events, ts, d)) :
    C9Claim s events ts := by
  rw [run_cycle_eq] at hrun
  simp only [Except.ok.injEq, Prod.mk.injEq] at hrun
  obtain ⟨hev, hts, hd⟩ := hrun
  subst hev hts hd
  refine ⟨rfl, ?_⟩
  intro ev hev
  rcases List.mem_append.mp hev with h | h
  · obtain ⟨m, _, he⟩ := List.mem_filterMap.mp h
    rcases succ_err_cases s.timestamp s.data m with
      ⟨r, _, _, hep⟩ | ⟨_, _, hep⟩
    · rw [hep] at he
      exact Option.noConfusion he
    · rw [hep] at he
      cases he
      rfl
  · rw [List.mem_singleton] at h
    rw [h]

/-- Witness for C9 at a concrete one-model cycle. -/
theorem c9_witness :
    C9Claim snapW
      [⟨"object.detections.all",
        Payload.combined ⟨"t", 100, [("A", 11)], 1⟩, some 100⟩] 100 :=
  c9_capture_timestamp cOfW snapW 1 [("A", fOkA)] _ _ _ rfl

/-- C10: a detect call that returns None without raising is treated as a
failure: the model is absent from the results mapping of the cycle, and an
error record whose payload is the JSON value null is published on the error
topic of that model. -/
theorem c10_none_result_is_failure (chicagoOf : Nat → String) (s : Snapshot)
    (dur : Rat) (n : String) (f : DetectFun)
    (completed : List (String × DetectFun))
    (events : List PublishEvent) (ts : Nat) (d : Rat)
    (hmem : (n, f) ∈ completed)
    (hnone : f s.data = Except.ok none)
    (hnodup : (completed.map Prod.fst).Nodup)
    (hrun : run_detection_cycle_parallel chicagoOf (Except.ok s) dur completed
      = Except.ok (events, ts, d)) :
    C10Claim n events ts d := by
  rw [run_cycle_eq] at hrun
  simp only [Except.ok.injEq, Prod.mk.injEq] at hrun
  obtain ⟨hev, hts, hd⟩ := hrun
  subst hev hts hd
  refine ⟨completed.filterMap (succPart s.data),
          completed.filterMap (errPart s.timestamp s.data),
          chicagoOf s.timestamp, rfl, ?_, ?_⟩
  · refine List.mem_filterMap.mpr ⟨(n, f), hmem, ?_⟩
    simp [errPart, run_model_detection, hnone, dumpsErr]
  · intro hcontra
    obtain ⟨p, hp, hp1⟩ := List.mem_map.mp hcontra
    obtain ⟨m1, hm1, hsome1⟩ := List.mem_filterMap.mp hp
    rcases succ_err_cases s.timestamp s.data m1 with
      ⟨r, hrd, hsp, _⟩ | ⟨_, hsp, _⟩
    · rw [hsp] at hsome1
      cases hsome1
      have hm1m : m1 = (n, f) :=
        List.inj_on_of_nodup_map hnodup hm1 hmem hp1
      rw [hm1m] at hrd
      simp [run_model_detection, hnone] at hrd
    · rw [hsp] at hsome1
      exact Option.noConfusion hsome1

/-- Witness for C10 at a concrete one-model cycle whose detect call returns
None. -/
theorem c10_witness :
    C10Claim "D"
      [⟨errorTopic "D", Payload.null, some 100⟩,
       ⟨"object.detections.all",
        Payload.combined ⟨"t", 100, [], 1⟩, some 100⟩] 100 1 :=
  c10_none_result_is_failure cOfW snapW 1 "D" fNoneD [("D", fNoneD)] _ _ _
    (List.mem_singleton.mpr rfl) rfl (by decide) rfl

theorem pyint_of_nonneg {q : Rat} (h : 0 ≤ q) : pyint q = ⌊q⌋ := if_pos h

theorem next_cycle_time_eq_floor {e T : Rat} (he : 0 ≤ e) (hT : 0 < T) :
    next_cycle_time e T = ((⌊e / T⌋ + 1 : Int) : Rat) * T := by
  unfold next_cycle_time
  rw [pyint_of_nonneg (div_nonneg he hT.le)]

theorem lt_next_cycle_time {e T : Rat} (he : 0 ≤ e) (hT : 0 < T) :
    e < next_cycle_time e T := by
  rw [next_cycle_time_eq_floor he hT]
  have h1 : e / T < ((⌊e / T⌋ + 1 : Int) : Rat) := by
    push_cast
    exact Int.lt_floor_add_one (e / T)
  exact (div_lt_iff₀ hT).mp h1

theorem next_cycle_time_min {e T : Rat} (he : 0 ≤ e) (hT : 0 < T)
    (j : Int) (hj : e < (j : Rat) * T) :
    next_cycle_time e T ≤ (j : Rat) * T := by
  rw [next_cycle_time_eq_floor he hT]
  have h1 : e / T < (j : Rat) := (div_lt_iff₀ hT).mpr hj
  have h2 : ⌊e / T⌋ < j := Int.floor_lt.mpr h1
  have h3 : (⌊e / T⌋ + 1 : Int) ≤ j := h2
  exact mul_le_mul_of_nonneg_right (by exact_mod_cast h3) hT.le

theorem sleep_time_add {e T : Rat} :
    e + sleep_time e T = next_cycle_time e T := by
  unfold sleep_time
  ring

theorem pacing_continue_iff {e T B : Rat} (he : 0 ≤ e) (hT : 0 < T) :
    pacing_continue e T B ↔ next_cycle_time e T < B := by
  unfold pacing_continue
  have h1 : 0 < sleep_time e T := by
    have h2 := lt_next_cycle_time he hT
    unfold sleep_time
    linarith
  have h3 : e + sleep_time e T = next_cycle_time e T := sleep_time_add
  constructor
  · rintro ⟨-, h2⟩
    linarith
  · intro h
    exact ⟨h1, by linarith⟩

/-- C4: when a pacing interval is configured, after a completed cycle the
scheduler sleeps exactly to the next multiple of the interval measured from
the loop start (the least multiple strictly after the current elapsed time),
and it does so precisely when that target is still below the budget duration;
otherwise the pacing branch exits the loop instead of oversleeping past the
budget. -/
theorem c4_pacing_sleeps_to_next_multiple (elapsed interval max_duration : Rat)
    (he : 0 ≤ elapsed) (hT : 0 < interval) :
    C4Claim elapsed interval max_duration :=
  ⟨⟨pyint (elapsed / interval) + 1, rfl⟩,
   lt_next_cycle_time he hT,
   fun j hj => next_cycle_time_min he hT j hj,
   sleep_time_add,
   pacing_continue_iff he hT⟩

/-- Witness for C4 at elapsed 5, interval 3, budget 100. -/
theorem c4_witness : C4Claim 5 3 100 :=
  c4_pacing_sleeps_to_next_multiple 5 3 100 (by norm_num) (by norm_num)

theorem next_cycle_time_step {T w : Rat} (k : Nat) (hT : 0 < T)
    (hw0 : 0 ≤ w) (hw1 : w < T) :
    next_cycle_time ((k : Rat) * T + w) T = ((k + 1 : Nat) : Rat) * T := by
  have he2 : (0 : Rat) ≤ (k : Rat) * T + w := by
    have hk0 : (0 : Rat) ≤ (k : Rat) * T :=
      mul_nonneg (Nat.cast_nonneg k) hT.le
    linarith
  rw [next_cycle_time_eq_floor he2 hT]
  have hfl : ⌊((k : Rat) * T + w) / T⌋ = (k : Int) := by
    rw [Int.floor_eq_iff]
    constructor
    · rw [le_div_iff₀ hT]
      push_cast
      nlinarith
    · rw [div_lt_iff₀ hT]
      push_cast
      nlinarith
  rw [hfl]
  push_cast
  ring

theorem loopStarts_count (B T : Rat) (hT : 0 < T) :
    ∀ (ws : List Rat) (k : Nat) (starts : List Rat),
      (∀ w ∈ ws, 0 ≤ w ∧ w < T) →
      loopStarts B T ws ((k : Rat) * T) = some starts →
      (starts.length : Int) = max (⌈B / T⌉ - k) 0 ∧ ∀ s ∈ starts, s < B
  | [], k, starts, _hw, h => by
    rw [loopStarts] at h
    by_cases hk : ((k : Rat) * T) < B
    · rw [if_pos hk] at h
      exact Option.noConfusion h
    · rw [if_neg hk] at h
      cases h
      have h1 : B / T ≤ ((k : Int) : Rat) := by
        rw [div_le_iff₀ hT]
        push_cast
        exact le_of_not_lt hk
      have h2 : ⌈B / T⌉ ≤ (k : Int) := Int.ceil_le.mpr h1
      refine ⟨by simp; omega, by simp⟩
  | w :: ws, k, starts, hw, h => by
    rw [loopStarts] at h
    by_cases hk : ((k : Rat) * T) < B
    case neg =>
      rw [if_neg hk] at h
      cases h
      have h1 : B / T ≤ ((k : Int) : Rat) := by
        rw [div_le_iff₀ hT]
        push_cast
        exact le_of_not_lt hk
      have h2 : ⌈B / T⌉ ≤ (k : Int) := Int.ceil_le.mpr h1
      refine ⟨by simp; omega, by simp⟩
    case pos =>
      rw [if_pos hk] at h
      obtain ⟨hw0, hw1⟩ := hw w (List.mem_cons_self w ws)
      have hnext := next_cycle_time_step (T := T) (w := w) k hT hw0 hw1
      have hklt : ((k : Int) : Rat) < B / T := by
        rw [lt_div_iff₀ hT]
        push_cast
        exact hk
      have hkceil : (k : Int) < ⌈B / T⌉ := Int.lt_ceil.mpr hklt
      by_cases hp : pacing_continue ((k : Rat) * T + w) T B
      case pos =>
        rw [if_pos hp] at h
        rw [hnext] at h
        have hcont : ((k + 1 : Nat) : Rat) * T < B := by
          have := (pacing_continue_iff (B := B)
            (by positivity : (0 : Rat) ≤ (k : Rat) * T + w) hT).mp hp
          rw [hnext] at this
          exact this
        have hkc2 : ((k : Int) + 1) < ⌈B / T⌉ := by
          refine Int.lt_ceil.mpr ?_
          rw [lt_div_iff₀ hT]
          push_cast
          push_cast at hcont
          linarith
        cases hrec : loopStarts B T ws (((k + 1 : Nat) : Rat) * T) with
        | none =>
          rw [hrec] at h
          exact Option.noConfusion h
        | some starts2 =>
          rw [hrec] at h
          cases h
          obtain ⟨hlen, hmem⟩ :=
            loopStarts_count B T hT ws (k + 1) starts2
              (fun x hx => hw x (List.mem_cons_of_mem w hx)) hrec
          constructor
          · simp only [List.length_cons]
            push_cast
            push_cast at hlen
            omega
          · intro s hs
            rcases List.mem_cons.mp hs with hs | hs
            · rw [hs]; exact hk
            · exact hmem s hs
      case neg =>
        rw [if_neg hp] at h
        cases h
        have hge : B ≤ ((k + 1 : Nat) : Rat) * T := by
          have h2 := (pacing_continue_iff (B := B)
            (by positivity : (0 : Rat) ≤ (k : Rat) * T + w) hT).not.mp hp
          rw [hnext] at h2
          exact le_of_not_lt h2
        have hceil2 : ⌈B / T⌉ ≤ (k : Int) + 1 := by
          refine Int.ceil_le.mpr ?_
          rw [div_le_iff₀ hT]
          push_cast
          push_cast at hge
          linarith
        constructor
        · simp only [List.length_singleton]
          omega
        · intro s hs
          rw [List.mem_singleton.mp hs]
          exact hk

theorem run_cycle_error (chicagoOf : Nat → String) (exc : PyExc) (dur : Rat)
    (completed : List (String × DetectFun)) :
    run_detection_cycle_parallel chicagoOf (Except.error exc) dur completed =
      Except.error exc := rfl

theorem mainLoop_not_lt (chicagoOf : Nat → String) (B T : Rat)
    (envs : List CycleEnv) (e : Rat) (h : ¬ e < B) :
    mainLoop chicagoOf B T envs e = some ([], [], none) := by
  cases envs <;> rw [mainLoop, if_neg h]

theorem mainLoop_raise (chicagoOf : Nat → String) (B T : Rat) (env : CycleEnv)
    (rest : List CycleEnv) (e : Rat) (exc : PyExc)
    (hs : env.capture = Except.error exc) (he : e < B) :
    mainLoop chicagoOf B T (env :: rest) e = some ([], [], some exc) := by
  rw [mainLoop, if_pos he]
  simp only [hs, run_cycle_error]

theorem mainLoop_step_continue_some (chicagoOf : Nat → String) (B T : Rat)
    (env : CycleEnv) (rest : List CycleEnv) (e : Rat) (s : Snapshot)
    (events2 : List PublishEvent) (times2 : List Rat) (exc : Option PyExc)
    (hs : env.capture = Except.ok s) (he : e < B)
    (hp : pacing_continue (e + env.cycle_wall) T B)
    (hrec : mainLoop chicagoOf B T rest
      (next_cycle_time (e + env.cycle_wall) T) = some (events2, times2, exc)) :
    mainLoop chicagoOf B T (env :: rest) e =
      some (cycleEvents chicagoOf env ++ events2,
            env.parallel_duration :: times2, exc) := by
  rw [mainLoop, if_pos he]
  simp only [hs, run_cycle_eq, if_pos hp, hrec, cycleEvents.eq_def]

theorem mainLoop_step_break (chicagoOf : Nat → String) (B T : Rat)
    (env : CycleEnv) (rest : List CycleEnv) (e : Rat) (s : Snapshot)
    (hs : env.capture = Except.ok s) (he : e < B)
    (hp : ¬ pacing_continue (e + env.cycle_wall) T B) :
    mainLoop chicagoOf B T (env :: rest) e =
      some (cycleEvents chicagoOf env, [env.parallel_duration], none) := by
  rw [mainLoop, if_pos he]
  simp only [hs, run_cycle_eq, if_neg hp, cycleEvents.eq_def]

theorem pacing_step_nat (k : Nat) (w T B : Rat) (hT : 0 < T)
    (hw0 : 0 ≤ w) (hw1 : w < T) :
    pacing_continue ((k : Rat) * T + w) T B ↔ ((k + 1 : Nat) : Rat) * T < B := by
  rw [pacing_continue_iff (by positivity) hT,
      next_cycle_time_step k hT hw0 hw1]

theorem mainLoop_loopStarts (chicagoOf : Nat → String) (B T : Rat) :
    ∀ (envs : List CycleEnv) (e : Rat) (evs : List PublishEvent)
      (times : List Rat) (exc : Option PyExc),
      (∀ env ∈ envs, ∃ s, env.capture = Except.ok s) →
      mainLoop chicagoOf B T envs e = some (evs, times, exc) →
      exc = none ∧
      ∃ starts, loopStarts B T (envs.map CycleEnv.cycle_wall) e = some starts ∧
        starts.length = times.length
  | [], e, evs, times, exc, _hc, h => by
    rw [mainLoop] at h
    by_cases hk : e < B
    · rw [if_pos hk] at h
      exact Option.noConfusion h
    · rw [if_neg hk] at h
      cases h
      exact ⟨rfl, [], by rw [List.map_nil, loopStarts, if_neg hk], rfl⟩
  | env :: rest, e, evs, times, exc, hc, h => by
    rw [mainLoop] at h
    by_cases hk : e < B
    case neg =>
      rw [if_neg hk] at h
      cases h
      exact ⟨rfl, [], by rw [List.map_cons, loopStarts, if_neg hk], rfl⟩
    case pos =>
      rw [if_pos hk] at h
      obtain ⟨s, hs⟩ := hc env (List.mem_cons_self env rest)
      simp only [hs, run_cycle_eq] at h
      by_cases hp : pacing_continue (e + env.cycle_wall) T B
      case pos =>
        rw [if_pos hp] at h
        cases hrec : mainLoop chicagoOf B T rest
            (next_cycle_time (e + env.cycle_wall) T) with
        | none =>
          simp only [hrec] at h
          exact Option.noConfusion h
        | some r =>
          obtain ⟨evs2, times2, exc2⟩ := r
          simp only [hrec, Option.some.injEq, Prod.mk.injEq] at h
          obtain ⟨hev, htm, hexc⟩ := h
          subst hev htm hexc
          obtain ⟨hexc, starts2, hst, hlen⟩ :=
            mainLoop_loopStarts chicagoOf B T rest
              (next_cycle_time (e + env.cycle_wall) T) evs2 times2 exc2
              (fun x hx => hc x (List.mem_cons_of_mem env hx)) hrec
          refine ⟨hexc, e :: starts2, ?_, by simp [hlen]⟩
          rw [List.map_cons, loopStarts, if_pos hk, if_pos hp, hst]
      case neg =>
        rw [if_neg hp] at h
        simp only [Option.some.injEq, Prod.mk.injEq] at h
        obtain ⟨hev, htm, hexc⟩ := h
        subst hev htm hexc
        refine ⟨rfl, [e], ?_, rfl⟩
        rw [List.map_cons, loopStarts, if_pos hk, if_neg hp]

theorem mainLoop_envTen_run :
    mainLoop cOfW 30 3 [envTen, envTen, envTen] 0 =
      some (cycleEvents cOfW envTen ++ (cycleEvents cOfW envTen ++
            cycleEvents cOfW envTen),
            [envTen.parallel_duration, envTen.parallel_duration,
             envTen.parallel_duration], none) := by
  have hcap : envTen.capture = Except.ok ⟨0, 0⟩ := rfl
  have L1 : mainLoop cOfW 30 3 [envTen] 24 =
      some (cycleEvents cOfW envTen, [envTen.parallel_duration], none) :=
    mainLoop_step_break cOfW 30 3 envTen [] 24 ⟨0, 0⟩ hcap (by norm_num)
      (by
        rw [show (24 : Rat) + envTen.cycle_wall = ((11 : Nat) : Rat) * 3 + 1
              by norm_num [envTen],
            pacing_step_nat 11 1 3 30 (by norm_num) (by norm_num) (by norm_num)]
        norm_num)
  have L2 : mainLoop cOfW 30 3 [envTen, envTen] 12 =
      some (cycleEvents cOfW envTen ++ cycleEvents cOfW envTen,
            envTen.parallel_duration :: [envTen.parallel_duration], none) :=
    mainLoop_step_continue_some cOfW 30 3 envTen [envTen] 12 ⟨0, 0⟩ _ _ _
      hcap (by norm_num)
      (by
        rw [show (12 : Rat) + envTen.cycle_wall = ((7 : Nat) : Rat) * 3 + 1
              by norm_num [envTen],
            pacing_step_nat 7 1 3 30 (by norm_num) (by norm_num) (by norm_num)]
        norm_num)
      (by
        rw [show (12 : Rat) + envTen.cycle_wall = ((7 : Nat) : Rat) * 3 + 1
              by norm_num [envTen],
            next_cycle_time_step 7 (by norm_num) (by norm_num) (by norm_num),
            show ((7 + 1 : Nat) : Rat) * 3 = 24 by norm_num]
        exact L1)
  have L3 : mainLoop cOfW 30 3 [envTen, envTen, envTen] 0 =
      some (cycleEvents cOfW envTen ++ (cycleEvents cOfW envTen ++
            cycleEvents cOfW envTen),
            envTen.parallel_duration ::
              (envTen.parallel_duration :: [envTen.parallel_duration]), none) :=
    mainLoop_step_continue_some cOfW 30 3 envTen [envTen, envTen] 0 ⟨0, 0⟩ _ _ _
      hcap (by norm_num)
      (by
        rw [show (0 : Rat) + envTen.cycle_wall = ((3 : Nat) : Rat) * 3 + 1
              by norm_num [envTen],
            pacing_step_nat 3 1 3 30 (by norm_num) (by norm_num) (by norm_num)]
        norm_num)
      (by
        rw [show (0 : Rat) + envTen.cycle_wall = ((3 : Nat) : Rat) * 3 + 1
              by norm_num [envTen],
            next_cycle_time_step 3 (by norm_num) (by norm_num) (by norm_num),
            show ((3 + 1 : Nat) : Rat) * 3 = 12 by norm_num]
        exact L2)
  exact L3

/-- Counterexample to C5 as stated: with pacing interval 3 and budget 30 but
cycles lasting 10 seconds each, the run completes 3 cycles, far outside
floor(30 / 3) plus or minus one. -/
theorem c5_counterexample :
    (mainLoop cOfW 30 3 [envTen, envTen, envTen] 0).map
        (fun r => r.2.1.length) = some 3 ∧
    ¬ (⌊(30 : Rat) / 3⌋ - 1 ≤ (3 : Int) ∧ (3 : Int) ≤ ⌊(30 : Rat) / 3⌋ + 1) := by
  constructor
  · rw [mainLoop_envTen_run]
    rfl
  · rw [show ⌊(30 : Rat) / 3⌋ = 10 by norm_num]
    decide

/-- C5 amended: with pacing interval T and budget B, when every loop
iteration takes nonnegative wall time shorter than T and every capture
succeeds, the number of completed cycles lies between floor(B / T) and
floor(B / T) + 1, and no cycle start time exceeds B. -/
theorem c5_amended_cycle_count (chicagoOf : Nat → String) (B T : Rat)
    (envs : List CycleEnv) (evs : List PublishEvent) (times : List Rat)
    (hB : 0 ≤ B) (hT : 0 < T)
    (hwall : ∀ env ∈ envs, 0 ≤ env.cycle_wall ∧ env.cycle_wall < T)
    (hcap : ∀ env ∈ envs, ∃ s, env.capture = Except.ok s)
    (hrun : mainLoop chicagoOf B T envs 0 = some (evs, times, none)) :
    C5Amended B T times (envs.map CycleEnv.cycle_wall) := by
  obtain ⟨-, starts, hst, hlen⟩ :=
    mainLoop_loopStarts chicagoOf B T envs 0 evs times none hcap hrun
  have hst0 : loopStarts B T (envs.map CycleEnv.cycle_wall)
      (((0 : Nat) : Rat) * T) = some starts := by
    simpa using hst
  obtain ⟨hcount, hmem⟩ :=
    loopStarts_count B T hT (envs.map CycleEnv.cycle_wall) 0 starts
      (by
        intro w hw
        obtain ⟨env, henv, hwe⟩ := List.mem_map.mp hw
        rw [← hwe]
        exact hwall env henv) hst0
  have hceil0 : 0 ≤ ⌈B / T⌉ := by
    refine Int.ceil_nonneg ?_
    positivity
  have hfc : ⌊B / T⌋ ≤ ⌈B / T⌉ := Int.floor_le_ceil (B / T)
  have hcf : ⌈B / T⌉ ≤ ⌊B / T⌋ + 1 := Int.ceil_le_floor_add_one (B / T)
  refine ⟨⟨?_, ?_⟩, starts, hst, hlen, fun s hs => (hmem s hs).le⟩
  · rw [← hlen] at *
    omega
  · rw [← hlen] at *
    omega

theorem mainLoop_envW_run :
    mainLoop cOfW 10 3 [envW, envW, envW, envW] 0 =
      some (cycleEvents cOfW envW ++ (cycleEvents cOfW envW ++
            (cycleEvents cOfW envW ++ cycleEvents cOfW envW)),
            [envW.parallel_duration, envW.parallel_duration,
             envW.parallel_duration, envW.parallel_duration], none) := by
  have hcap : envW.capture = Except.ok ⟨0, 0⟩ := rfl
  have L1 : mainLoop cOfW 10 3 [envW] 9 =
      some (cycleEvents cOfW envW, [envW.parallel_duration], none) :=
    mainLoop_step_break cOfW 10 3 envW [] 9 ⟨0, 0⟩ hcap (by norm_num)
      (by
        rw [show (9 : Rat) + envW.cycle_wall = ((3 : Nat) : Rat) * 3 + 1
              by norm_num [envW],
            pacing_step_nat 3 1 3 10 (by norm_num) (by norm_num) (by norm_num)]
        norm_num)
  have L2 : mainLoop cOfW 10 3 [envW, envW] 6 =
      some (cycleEvents cOfW envW ++ cycleEvents cOfW envW,
            envW.parallel_duration :: [envW.parallel_duration], none) :=
    mainLoop_step_continue_some cOfW 10 3 envW [envW] 6 ⟨0, 0⟩ _ _ _
      hcap (by norm_num)
      (by
        rw [show (6 : Rat) + envW.cycle_wall = ((2 : Nat) : Rat) * 3 + 1
              by norm_num [envW],
            pacing_step_nat 2 1 3 10 (by norm_num) (by norm_num) (by norm_num)]
        norm_num)
      (by
        rw [show (6 : Rat) + envW.cycle_wall = ((2 : Nat) : Rat) * 3 + 1
              by norm_num [envW],
            next_cycle_time_step 2 (by norm_num) (by norm_num) (by norm_num),
            show ((2 + 1 : Nat) : Rat) * 3 = 9 by norm_num]
        exact L1)
  have L3 : mainLoop cOfW 10 3 [envW, envW, envW] 3 =
      some (cycleEvents cOfW envW ++ (cycleEvents cOfW envW ++
            cycleEvents cOfW envW),
            envW.parallel_duration ::
              (envW.parallel_duration :: [envW.parallel_duration]), none) :=
    mainLoop_step_continue_some cOfW 10 3 envW [envW, envW] 3 ⟨0, 0⟩ _ _ _
      hcap (by norm_num)
      (by
        rw [show (3 : Rat) + envW.cycle_wall = ((1 : Nat) : Rat) * 3 + 1
              by norm_num [envW],
            pacing_step_nat 1 1 3 10 (by norm_num) (by norm_num) (by norm_num)]
        norm_num)
      (by
        rw [show (3 : Rat) + envW.cycle_wall = ((1 : Nat) : Rat) * 3 + 1
              by norm_num [envW],
            next_cycle_time_step 1 (by norm_num) (by norm_num) (by norm_num),
            show ((1 + 1 : Nat) : Rat) * 3 = 6 by norm_num]
        exact L2)
  have L4 : mainLoop cOfW 10 3 [envW, envW, envW, envW] 0 =
      some (cycleEvents cOfW envW ++ (cycleEvents cOfW envW ++
            (cycleEvents cOfW envW ++ cycleEvents cOfW envW)),
            envW.parallel_duration :: (envW.parallel_duration ::
              (envW.parallel_duration :: [envW.parallel_duration])), none) :=
    mainLoop_step_continue_some cOfW 10 3 envW [envW, envW, envW] 0 ⟨0, 0⟩ _ _ _
      hcap (by norm_num)
      (by
        rw [show (0 : Rat) + envW.cycle_wall = ((0 : Nat) : Rat) * 3 + 1
              by norm_num [envW],
            pacing_step_nat 0 1 3 10 (by norm_num) (by norm_num) (by norm_num)]
        norm_num)
      (by
        rw [show (0 : Rat) + envW.cycle_wall = ((0 : Nat) : Rat) * 3 + 1
              by norm_num [envW],
            next_cycle_time_step 0 (by norm_num) (by norm_num) (by norm_num),
            show ((0 + 1 : Nat) : Rat) * 3 = 3 by norm_num]
        exact L3)
  exact L4

/-- Witness for the amended C5: budget 10, interval 3, four one-second
cycles, starts 0, 3, 6, 9. -/
theorem c5_amended_witness :
    C5Amended 10 3
      [envW.parallel_duration, envW.parallel_duration,
       envW.parallel_duration, envW.parallel_duration]
      ([envW, envW, envW, envW].map CycleEnv.cycle_wall) :=
  c5_amended_cycle_count cOfW 10 3 [envW, envW, envW, envW] _ _
    (by norm_num) (by norm_num)
    (by
      intro env h
      simp only [List.mem_cons, List.not_mem_nil, or_false] at h
      rcases h with rfl | rfl | rfl | rfl <;>
        exact ⟨by norm_num [envW], by norm_num [envW]⟩)
    (by
      intro env h
      simp only [List.mem_cons, List.not_mem_nil, or_false] at h
      rcases h with rfl | rfl | rfl | rfl <;> exact ⟨⟨0, 0⟩, rfl⟩)
    mainLoop_envW_run

theorem cycleEvents_eq_of_ok (chicagoOf : Nat → String) (env : CycleEnv)
    (s : Snapshot) (hs : env.capture = Except.ok s) :
    cycleEvents chicagoOf env =
      env.completed.filterMap (errPart s.timestamp s.data) ++
        [⟨"object.detections.all",
          Payload.combined ⟨chicagoOf s.timestamp, s.timestamp,
            env.completed.filterMap (succPart s.data), env.parallel_duration⟩,
          some s.timestamp⟩] := by
  rw [cycleEvents.eq_def]
  simp only [hs, run_cycle_eq]

theorem mainLoop_capture_fatal (chicagoOf : Nat → String) (B T : Rat)
    (bad : CycleEnv) (rest : List CycleEnv) (exc : PyExc)
    (hbad : bad.capture = Except.error exc) :
    ∀ (good : List CycleEnv) (e : Rat) (evs : List PublishEvent)
      (times : List Rat) (ex : PyExc),
      (∀ env ∈ good, ∃ s, env.capture = Except.ok s) →
      mainLoop chicagoOf B T (good ++ bad :: rest) e =
        some (evs, times, some ex) →
      ex = exc ∧ times.length = good.length ∧
        evs = (good.map (cycleEvents chicagoOf)).flatten
  | [], e, evs, times, ex, _hg, h => by
    rw [List.nil_append, mainLoop] at h
    by_cases hk : e < B
    · rw [if_pos hk] at h
      simp only [hbad, run_cycle_error, Option.some.injEq, Prod.mk.injEq] at h
      obtain ⟨hev, htm, hexc⟩ := h
      subst hev htm
      exact ⟨hexc.symm, rfl, rfl⟩
    · rw [if_neg hk] at h
      simp only [Option.some.injEq, Prod.mk.injEq] at h
      exact absurd h.2.2 (by simp)
  | genv :: good, e, evs, times, ex, hg, h => by
    rw [List.cons_append, mainLoop] at h
    by_cases hk : e < B
    case neg =>
      rw [if_neg hk] at h
      simp only [Option.some.injEq, Prod.mk.injEq] at h
      exact absurd h.2.2 (by simp)
    case pos =>
      rw [if_pos hk] at h
      obtain ⟨s, hs⟩ := hg genv (List.mem_cons_self genv good)
      simp only [hs, run_cycle_eq] at h
      by_cases hp : pacing_continue (e + genv.cycle_wall) T B
      case pos =>
        rw [if_pos hp] at h
        cases hrec : mainLoop chicagoOf B T (good ++ bad :: rest)
            (next_cycle_time (e + genv.cycle_wall) T) with
        | none =>
          simp only [hrec] at h
          exact Option.noConfusion h
        | some r =>
          obtain ⟨evs2, times2, exc2⟩ := r
          simp only [hrec, Option.some.injEq, Prod.mk.injEq] at h
          obtain ⟨hev, htm, hexc⟩ := h
          subst hev htm
          rw [hexc] at hrec
          obtain ⟨hex2, hlen2, hevs2⟩ :=
            mainLoop_capture_fatal chicagoOf B T bad rest exc hbad good
              (next_cycle_time (e + genv.cycle_wall) T) evs2 times2 ex
              (fun x hx => hg x (List.mem_cons_of_mem genv hx)) hrec
          refine ⟨hex2, by simp [hlen2], ?_⟩
          rw [List.map_cons, List.flatten_cons,
              cycleEvents_eq_of_ok chicagoOf genv s hs, hevs2]
      case neg =>
        rw [if_neg hp] at h
        simp only [Option.some.injEq, Prod.mk.injEq] at h
        exact absurd h.2.2 (by simp)

/-- C6: when the capture call raises on cycle k while all earlier captures
succeed, the run aborts with the failure outcome: the loop publications are
exactly the complete records of cycles 1 through k-1 with nothing from cycle
k, and one best-effort diagnostic record is published on plugin.error before
the exception is re-raised. -/
theorem c6_fatal_capture_diagnostic (chicagoOf : Nat → String)
    (ps pf tb : String) (B T : Rat) (nc : Nat)
    (good rest : List CycleEnv) (bad : CycleEnv) (exc e : PyExc)
    (evs : List PublishEvent) (times : List Rat)
    (hgood : ∀ env ∈ good, ∃ s, env.capture = Except.ok s)
    (hbad : bad.capture = Except.error exc)
    (hrun : mainLoop chicagoOf B T (good ++ bad :: rest) 0 =
      some (evs, times, some e)) :
    C6Claim chicagoOf tb B T nc good bad rest exc ps pf evs times e := by
  obtain ⟨hex, hlen, hevs⟩ :=
    mainLoop_capture_fatal chicagoOf B T bad rest exc hbad good 0 evs times e
      hgood hrun
  subst hex
  refine ⟨rfl, hlen, hevs, ?_⟩
  simp only [mainRun, hrun]

theorem mainLoop_c6_run :
    mainLoop cOfW 10 3 ([envW] ++ envBad :: []) 0 =
      some (cycleEvents cOfW envW ++ [], [envW.parallel_duration],
            some ⟨"CaptureError", "busy"⟩) := by
  have hcap : envW.capture = Except.ok ⟨0, 0⟩ := rfl
  have L1 : mainLoop cOfW 10 3 [envBad] 3 =
      some ([], [], some ⟨"CaptureError", "busy"⟩) :=
    mainLoop_raise cOfW 10 3 envBad [] 3 ⟨"CaptureError", "busy"⟩ rfl
      (by norm_num)
  refine mainLoop_step_continue_some cOfW 10 3 envW [envBad] 0 ⟨0, 0⟩ [] []
    (some ⟨"CaptureError", "busy"⟩) hcap (by norm_num) ?_ ?_
  · rw [show (0 : Rat) + envW.cycle_wall = ((0 : Nat) : Rat) * 3 + 1
          by norm_num [envW],
        pacing_step_nat 0 1 3 10 (by norm_num) (by norm_num) (by norm_num)]
    norm_num
  · rw [show (0 : Rat) + envW.cycle_wall = ((0 : Nat) : Rat) * 3 + 1
          by norm_num [envW],
        next_cycle_time_step 0 (by norm_num) (by norm_num) (by norm_num),
        show ((0 + 1 : Nat) : Rat) * 3 = 3 by norm_num]
    exact L1

/-- Witness for C6: one good cycle, then a failing capture on cycle two. -/
theorem c6_witness :
    C6Claim cOfW "tb" 10 3 4 [envW] envBad [] ⟨"CaptureError", "busy"⟩ "s" "f"
      (cycleEvents cOfW envW ++ []) [envW.parallel_duration]
      ⟨"CaptureError", "busy"⟩ :=
  c6_fatal_capture_diagnostic cOfW "s" "f" "tb" 10 3 4 [envW] [] envBad
    ⟨"CaptureError", "busy"⟩ ⟨"CaptureError", "busy"⟩ _ _
    (by
      intro env h
      simp only [List.mem_cons, List.not_mem_nil, or_false] at h
      rcases h with rfl
      exact ⟨⟨0, 0⟩, rfl⟩)
    rfl mainLoop_c6_run

/-- C7: a run with budget duration 0 performs zero cycles and still
publishes the timing summary exactly once, with a cycle count of 0 and an
average cycle time of 0 rather than a division-by-zero failure. -/
theorem c7_zero_budget_summary (chicagoOf : Nat → String)
    (ps pf tb : String) (T : Rat) (nc : Nat) (envs : List CycleEnv) :
    mainRun chicagoOf ps pf tb 0 T nc envs =
      some ([⟨"plugin.timing.summary",
        Payload.timing ⟨ps, pf, 0, 0, [], min (min 3 nc) 3, nc⟩, none⟩],
        RunOutcome.normal) := by
  have h0 : mainLoop chicagoOf 0 T envs 0 = some ([], [], none) :=
    mainLoop_not_lt chicagoOf 0 T envs 0 (lt_irrefl 0)
  simp only [mainRun, h0]
  rfl

/-- C3: in deferred publish mode, modelled from the spec because src/main.py
publishes immediately, the cycle results appended to the ordered buffer and
flushed after the loop equal the executed cycle sequence, in FIFO order, with
none dropped and none duplicated. -/
theorem c3_deferred_fifo (executed : List (List PublishEvent)) :
    flushBuffer (deferredBuffer executed) = executed := by
  unfold flushBuffer deferredBuffer
  have h : ∀ l acc : List (List PublishEvent),
      l.foldl (fun buffer c => buffer ++ [c]) acc = acc ++ l := by
    intro l
    induction l with
    | nil => intro acc; simp
    | cons x l ih =>
      intro acc
      rw [List.foldl_cons, ih]
      simp
  simpa using h executed []

end MultithreadSage
